import Mathlib

/-!
Verification development for the Twitch logo-monitoring bot
(`src/logo_detector.py`, `src/stream_monitor.py`, `main.py`).

The detector's OpenCV calls (`cv2.matchTemplate` with `TM_CCOEFF_NORMED`
followed by `cv2.minMaxLoc`) are modelled by an oracle `TmOracle` giving,
for each resized template size, the maximal correlation value and the
location attaining it.  All control flow around those calls is translated
directly from the Python source.  Rationals stand for Python floats, with
`numpy.linspace` rendered exactly.
-/

set_option maxRecDepth 100000

namespace BotMonitor

/-- Pixel rectangle `(x, y, w, h)` as produced by `detect`. -/
abbrev Loc := Nat × Nat × Nat × Nat

/-- Result dictionary of `LogoDetector.detect` (logo_detector.py lines 95-100). -/
structure DetectionResult where
  detected : Bool
  confidence : ℚ
  location : Option Loc
  scale : Option ℚ
deriving DecidableEq, Repr

/-- The running state of the scale loop (logo_detector.py lines 64-67):
`best_confidence`, `best_scale`, `best_location`. -/
structure Best where
  best_confidence : ℚ
  best_scale : ℚ
  best_location : Option Loc
deriving DecidableEq, Repr

/-- Oracle for `cv2.matchTemplate` + `cv2.minMaxLoc`: for a resized template of
a given width and height it returns `(max_val, max_loc.x, max_loc.y)`. -/
abbrev TmOracle := Nat → Nat → ℚ × Nat × Nat

/-- Model of `np.linspace(0.5, 1.5, 20)` (logo_detector.py line 70): twenty evenly
spaced values from 1/2 to 3/2 with step `(3/2 - 1/2)/19`. -/
def scales : List ℚ := (List.range 20).map (fun k => 1/2 + (k : ℚ) * (1/19))

/-- Model of `int(self.logo_width * scale)` (logo_detector.py lines 74-75): Python `int`
truncates toward zero, which is the floor for the nonnegative values arising
here. -/
def candSize (w : Nat) (s : ℚ) : Nat := (Int.floor ((w : ℚ) * s)).toNat

/-- One iteration of the scale loop (logo_detector.py lines 72-90).  A scale
whose resized template exceeds the image bounds is skipped (`continue`, line
77); otherwise the running best is replaced exactly when
`max_val > best_confidence` (line 87, strict comparison). -/
def stepScale (lw lh iw ih : Nat) (tm : TmOracle) (st : Best) (scale : ℚ) :
    Best :=
  if iw < candSize lw scale ∨ ih < candSize lh scale then st
  else if st.best_confidence < (tm (candSize lw scale) (candSize lh scale)).1 then
    ⟨(tm (candSize lw scale) (candSize lh scale)).1, scale,
      some ((tm (candSize lw scale) (candSize lh scale)).2.1,
            (tm (candSize lw scale) (candSize lh scale)).2.2,
            candSize lw scale, candSize lh scale)⟩
  else st

/-- The whole scale loop with the initial state of logo_detector.py lines
64-67: `best_confidence = 0`, `best_scale = 1.0`, `best_location = None`. -/
def detectLoop (lw lh iw ih : Nat) (tm : TmOracle) : Best :=
  scales.foldl (stepScale lw lh iw ih tm) ⟨0, 1, none⟩

/-- Model of `LogoDetector.detect` (logo_detector.py lines 35-100).  `img` is `none`
when `cv2.imread` cannot decode the target (line 53), otherwise it carries the
grayscale image's `(width, height)`.  `lw`, `lh` are the reference logo's
pixel dimensions; the decision on line 93 is `best_confidence >= threshold`
and lines 98-99 null out location and scale when not detected. -/
def detect (lw lh : Nat) (threshold : ℚ) (img : Option (Nat × Nat))
    (tm : TmOracle) : DetectionResult :=
  match img with
  | none => ⟨false, 0, none, none⟩
  | some (iw, ih) =>
      let st := detectLoop lw lh iw ih tm
      let detected := decide (threshold ≤ st.best_confidence)
      ⟨detected, st.best_confidence, if detected then st.best_location else none,
        if detected then some st.best_scale else none⟩

/-- The candidate state a single scale would contribute, if its resized
template fits in the image; `none` for skipped scales. -/
def candAt (lw lh iw ih : Nat) (tm : TmOracle) (s : ℚ) : Option Best :=
  if iw < candSize lw s ∨ ih < candSize lh s then none
  else some ⟨(tm (candSize lw s) (candSize lh s)).1, s,
    some ((tm (candSize lw s) (candSize lh s)).2.1,
          (tm (candSize lw s) (candSize lh s)).2.2,
          candSize lw s, candSize lh s)⟩

/-- All candidates actually tried by the loop, in ascending scale order. -/
def cands (lw lh iw ih : Nat) (tm : TmOracle) : List Best :=
  scales.filterMap (candAt lw lh iw ih tm)

/-- Generic running-best fold: replace the accumulator exactly when the new
score is strictly greater. -/
def runBest (st : Best) : List Best → Best
  | [] => st
  | c :: l => runBest (if st.best_confidence < c.best_confidence then c else st) l

/-- A constant all-zero correlation oracle, used for concrete instances. -/
def tmZero : TmOracle := fun _ _ => (0, 0, 0)

/-- A constant positive correlation oracle, used for concrete instances. -/
def tmPos : TmOracle := fun _ _ => (9/10, 3, 4)

/- ### Properties of the running-best fold -/

lemma runBest_cons (st c : Best) (l : List Best) :
    runBest st (c :: l)
      = runBest (if st.best_confidence < c.best_confidence then c else st) l := rfl

lemma le_runBest (l : List Best) : ∀ st : Best,
    st.best_confidence ≤ (runBest st l).best_confidence := by
  induction l with
  | nil => intro st; exact le_rfl
  | cons c l ih =>
      intro st
      rw [runBest_cons]
      refine le_trans ?_ (ih _)
      split
      · exact le_of_lt (by assumption)
      · exact le_rfl

lemma runBest_eq_self (l : List Best) : ∀ st : Best,
    (runBest st l).best_confidence ≤ st.best_confidence → runBest st l = st := by
  induction l with
  | nil => intro st _; rfl
  | cons c l ih =>
      intro st h
      rw [runBest_cons] at h ⊢
      by_cases hc : st.best_confidence < c.best_confidence
      · rw [if_pos hc] at h ⊢
        exact absurd (lt_of_lt_of_le hc (le_trans (le_runBest l c) h)) (lt_irrefl _)
      · rw [if_neg hc] at h ⊢
        exact ih st h

lemma if_best_eq_max (st c : Best) :
    (if st.best_confidence < c.best_confidence then c else st).best_confidence
      = max st.best_confidence c.best_confidence := by
  split
  · exact (max_eq_right (le_of_lt (by assumption))).symm
  · exact (max_eq_left (le_of_not_lt (by assumption))).symm

lemma runBest_confidence (l : List Best) : ∀ st : Best,
    (runBest st l).best_confidence
      = l.foldl (fun a c => max a c.best_confidence) st.best_confidence := by
  induction l with
  | nil => intro st; rfl
  | cons c l ih =>
      intro st
      rw [runBest_cons, List.foldl_cons, ih, if_best_eq_max]

lemma mem_le_runBest (l : List Best) : ∀ st : Best, ∀ c ∈ l,
    c.best_confidence ≤ (runBest st l).best_confidence := by
  induction l with
  | nil => intro st c hc; exact absurd hc (List.not_mem_nil c)
  | cons d l ih =>
      intro st c hc
      rw [runBest_cons]
      rcases List.mem_cons.mp hc with rfl | h
      · refine le_trans ?_ (le_runBest l _)
        rw [if_best_eq_max]
        exact le_max_right _ _
      · exact ih _ c h

lemma runBest_self_or_mem (l : List Best) : ∀ st : Best,
    runBest st l = st ∨ runBest st l ∈ l := by
  induction l with
  | nil => intro st; exact Or.inl rfl
  | cons c l ih =>
      intro st
      rw [runBest_cons]
      by_cases hc : st.best_confidence < c.best_confidence
      · rw [if_pos hc]
        rcases ih c with h | h
        · exact Or.inr (by rw [h]; exact List.mem_cons_self c l)
        · exact Or.inr (List.mem_cons_of_mem c h)
      · rw [if_neg hc]
        rcases ih st with h | h
        · exact Or.inl h
        · exact Or.inr (List.mem_cons_of_mem c h)

lemma runBest_le_bound (l : List Best) : ∀ (st : Best) (B : ℚ),
    st.best_confidence ≤ B → (∀ c ∈ l, c.best_confidence ≤ B) →
    (runBest st l).best_confidence ≤ B := by
  induction l with
  | nil => intro st B hst _; exact hst
  | cons c l ih =>
      intro st B hst hall
      rw [runBest_cons]
      refine ih _ B ?_ (fun d hd => hall d (List.mem_cons_of_mem c hd))
      rw [if_best_eq_max]
      exact max_le hst (hall c (List.mem_cons_self c l))

/-- With the strict-greater update, the final best is the first tried
candidate whose score reaches the final best value (first-encountered wins
on ties), provided some update actually happened. -/
lemma runBest_find? (l : List Best) : ∀ st : Best,
    st.best_confidence < (runBest st l).best_confidence →
    l.find? (fun c => decide ((runBest st l).best_confidence ≤ c.best_confidence))
      = some (runBest st l) := by
  induction l with
  | nil => intro st h; exact absurd h (lt_irrefl _)
  | cons c l ih =>
      intro st h
      rw [runBest_cons] at h ⊢
      by_cases hc : st.best_confidence < c.best_confidence
      · rw [if_pos hc] at h ⊢
        by_cases hr : (runBest c l).best_confidence ≤ c.best_confidence
        · have hrc : runBest c l = c := runBest_eq_self l c hr

          rw [List.find?_cons_of_pos _ (by rw [hrc]; exact decide_eq_true le_rfl), hrc]
        · rw [List.find?_cons_of_neg _ (by simpa using hr)]
          exact ih c (lt_of_not_le hr)
      · rw [if_neg hc] at h ⊢
        have hcst : c.best_confidence ≤ st.best_confidence := le_of_not_lt hc
        rw [List.find?_cons_of_neg _ (by simp; exact lt_of_le_of_lt hcst h)]
        exact ih st h

/- ### Relating the scale loop to the running-best fold -/

lemma foldl_stepScale_eq_runBest (lw lh iw ih : Nat) (tm : TmOracle) :
    ∀ (L : List ℚ) (st : Best),
      L.foldl (stepScale lw lh iw ih tm) st
        = runBest st (L.filterMap (candAt lw lh iw ih tm)) := by
  intro L
  induction L with
  | nil => intro st; rfl
  | cons s L IH =>
      intro st
      rw [List.foldl_cons, List.filterMap_cons]
      by_cases hs : iw < candSize lw s ∨ ih < candSize lh s
      · rw [show candAt lw lh iw ih tm s = none from if_pos hs,
           show stepScale lw lh iw ih tm st s = st from if_pos hs]
        exact IH st
      · rw [show candAt lw lh iw ih tm s
              = some ⟨(tm (candSize lw s) (candSize lh s)).1, s,
                  some ((tm (candSize lw s) (candSize lh s)).2.1,
                        (tm (candSize lw s) (candSize lh s)).2.2,
                        candSize lw s, candSize lh s)⟩ from if_neg hs]
        rw [runBest_cons, IH]
        congr 1
        rw [show stepScale lw lh iw ih tm st s
              = if st.best_confidence < (tm (candSize lw s) (candSize lh s)).1 then
                  ⟨(tm (candSize lw s) (candSize lh s)).1, s,
                    some ((tm (candSize lw s) (candSize lh s)).2.1,
                          (tm (candSize lw s) (candSize lh s)).2.2,
                          candSize lw s, candSize lh s)⟩
                else st from if_neg hs]

lemma detectLoop_eq_runBest (lw lh iw ih : Nat) (tm : TmOracle) :
    detectLoop lw lh iw ih tm = runBest ⟨0, 1, none⟩ (cands lw lh iw ih tm) :=
  foldl_stepScale_eq_runBest lw lh iw ih tm scales ⟨0, 1, none⟩

lemma mem_cands (lw lh iw ih : Nat) (tm : TmOracle) (c : Best)
    (hc : c ∈ cands lw lh iw ih tm) :
    ∃ s ∈ scales, ¬(iw < candSize lw s ∨ ih < candSize lh s)
      ∧ c = ⟨(tm (candSize lw s) (candSize lh s)).1, s,
          some ((tm (candSize lw s) (candSize lh s)).2.1,
                (tm (candSize lw s) (candSize lh s)).2.2,
                candSize lw s, candSize lh s)⟩ := by
  rcases List.mem_filterMap.mp hc with ⟨s, hs, he⟩
  refine ⟨s, hs, ?_⟩
  by_cases h : iw < candSize lw s ∨ ih < candSize lh s
  · rw [show candAt lw lh iw ih tm s = none from if_pos h] at he
    exact absurd he (by simp)
  · rw [show candAt lw lh iw ih tm s
          = some ⟨(tm (candSize lw s) (candSize lh s)).1, s,
              some ((tm (candSize lw s) (candSize lh s)).2.1,
                    (tm (candSize lw s) (candSize lh s)).2.2,
                    candSize lw s, candSize lh s)⟩ from if_neg h] at he
    exact ⟨h, (Option.some_injective _ he).symm⟩

/- ### The truncation in the candidate size -/

lemma candSize_cast (w : Nat) (s : ℚ) (hs : 0 ≤ s) :
    ((candSize w s : ℕ) : ℚ) = ((Int.floor ((w : ℚ) * s) : ℤ) : ℚ) := by
  have hx : (0 : ℚ) ≤ (w : ℚ) * s := mul_nonneg (Nat.cast_nonneg w) hs
  have hfl : (0 : ℤ) ≤ Int.floor ((w : ℚ) * s) := Int.floor_nonneg.mpr hx
  have h1 : ((Int.floor ((w : ℚ) * s)).toNat : ℤ) = Int.floor ((w : ℚ) * s) :=
    Int.toNat_of_nonneg hfl
  calc ((candSize w s : ℕ) : ℚ)
      = (((Int.floor ((w : ℚ) * s)).toNat : ℤ) : ℚ) := by norm_cast
    _ = ((Int.floor ((w : ℚ) * s) : ℤ) : ℚ) := by rw [h1]

lemma candSize_bounds (w : Nat) (s : ℚ) (hs : 0 ≤ s) :
    ((candSize w s : ℕ) : ℚ) ≤ (w : ℚ) * s
      ∧ (w : ℚ) * s - 1 < ((candSize w s : ℕ) : ℚ) := by
  rw [candSize_cast w s hs]
  exact ⟨Int.floor_le _, Int.sub_one_lt_floor _⟩

/-- Spec-side candidate size, following the claim's words literally:
`round(ref_width × scale)`. -/
def specCandSize (w : Nat) (s : ℚ) : Nat := (round ((w : ℚ) * s)).toNat

/- ### Rewriting the tried candidates as a filter over the scales -/

lemma filterMap_eq_filter_map {α β : Type} (p : α → Bool) (g : α → β)
    (f : α → Option β) (hf : ∀ a, f a = if p a then some (g a) else none)
    (l : List α) : l.filterMap f = (l.filter p).map g := by
  induction l with
  | nil => rfl
  | cons a l IH =>
      cases hp : p a <;>
        simp [List.filterMap_cons, hf a, hp, List.filter_cons, IH]

lemma candAt_eq_ite (lw lh iw ih : Nat) (tm : TmOracle) (s : ℚ) :
    candAt lw lh iw ih tm s
      = if candSize lw s ≤ iw ∧ candSize lh s ≤ ih then
          some ⟨(tm (candSize lw s) (candSize lh s)).1, s,
            some ((tm (candSize lw s) (candSize lh s)).2.1,
                  (tm (candSize lw s) (candSize lh s)).2.2,
                  candSize lw s, candSize lh s)⟩
        else none := by
  unfold candAt
  by_cases h : iw < candSize lw s ∨ ih < candSize lh s
  · rw [if_pos h, if_neg ?_]
    intro hc
    rcases h with h | h
    · exact absurd hc.1 (not_le.mpr h)
    · exact absurd hc.2 (not_le.mpr h)
  · rw [if_neg h, if_pos ?_]
    push_neg at h
    exact h

lemma cands_eq_filter (lw lh iw ih : Nat) (tm : TmOracle) :
    cands lw lh iw ih tm
      = (scales.filter
          (fun s => decide (candSize lw s ≤ iw ∧ candSize lh s ≤ ih))).map
          (fun s => ⟨(tm (candSize lw s) (candSize lh s)).1, s,
            some ((tm (candSize lw s) (candSize lh s)).2.1,
                  (tm (candSize lw s) (candSize lh s)).2.2,
                  candSize lw s, candSize lh s)⟩) := by
  refine filterMap_eq_filter_map _ _ _ (fun s => ?_) scales
  rw [candAt_eq_ite]
  by_cases h : candSize lw s ≤ iw ∧ candSize lh s ≤ ih
  · rw [if_pos h, if_pos (by simpa using h)]
  · rw [if_neg h, if_neg (by simpa using h)]

/- ## Claim theorems for the detector -/

/-- Claim C1: for every decodable target image, `detect` tracks the single
best (scale, location, similarity) triple over the tried scales with a
strictly-greater update (so the first-encountered candidate — the smallest
scale, since `scales` is generated in ascending order — wins ties), sets
`detected` exactly when the best similarity reaches the threshold, and always
returns the best similarity as `confidence`. -/
theorem C1_detect_tracks_best (lw lh iw ih : Nat) (threshold : ℚ)
    (tm : TmOracle) :
    (detect lw lh threshold (some (iw, ih)) tm).detected
        = decide (threshold ≤ (detectLoop lw lh iw ih tm).best_confidence)
    ∧ (detect lw lh threshold (some (iw, ih)) tm).confidence
        = (detectLoop lw lh iw ih tm).best_confidence
    ∧ (detectLoop lw lh iw ih tm).best_confidence
        = (cands lw lh iw ih tm).foldl (fun a c => max a c.best_confidence) 0
    ∧ (∀ c ∈ cands lw lh iw ih tm,
        c.best_confidence ≤ (detectLoop lw lh iw ih tm).best_confidence)
    ∧ (0 < (detectLoop lw lh iw ih tm).best_confidence →
        (cands lw lh iw ih tm).find?
            (fun c => decide ((detectLoop lw lh iw ih tm).best_confidence
              ≤ c.best_confidence))
          = some (detectLoop lw lh iw ih tm)) := by
  refine ⟨rfl, rfl, ?_, ?_, ?_⟩
  · rw [detectLoop_eq_runBest, runBest_confidence]
  · intro c hc
    rw [detectLoop_eq_runBest]
    exact mem_le_runBest _ _ c hc
  · intro h
    rw [detectLoop_eq_runBest] at h ⊢
    exact runBest_find? _ _ h

theorem C1_witness :
    0 < (detectLoop 2 2 10 10 tmPos).best_confidence
    ∧ (cands 2 2 10 10 tmPos).find?
        (fun c => decide ((detectLoop 2 2 10 10 tmPos).best_confidence
          ≤ c.best_confidence))
      = some (detectLoop 2 2 10 10 tmPos) :=
  ⟨by with_unfolding_all decide,
   (C1_detect_tracks_best 2 2 10 10 (3/5) tmPos).2.2.2.2
     (by with_unfolding_all decide)⟩

/-- Claim C2 counterexample: the code computes the candidate size with Python
`int(...)`, i.e. truncation, not `round(...)` as the claim states.  At the
second generated scale `21/38` (= 0.5 + 1/19) and a reference width of 10,
truncation yields 5 while rounding yields 6. -/
theorem C2_cex :
    scales.take 2 = [1/2, 21/38]
    ∧ candSize 10 (21/38) = 5
    ∧ specCandSize 10 (21/38) = 6
    ∧ candSize 10 (21/38) ≠ specCandSize 10 (21/38) := by
  with_unfolding_all decide

/-- Claim C2 (amended): the scale search generates exactly 20 evenly spaced
scale factors covering the inclusive range [1/2, 3/2]; each candidate size is
the truncation (floor) of `ref_dimension × scale` — not the rounding; and a
correlation pass is run exactly for the scales whose candidate size fits
within the target image's bounds, in generation order. -/
theorem C2_scale_search (lw lh iw ih : Nat) (tm : TmOracle) :
    scales.length = 20
    ∧ scales.head? = some (1/2)
    ∧ scales.getLast? = some (3/2)
    ∧ scales.zipWith (fun a b => b - a) scales.tail = List.replicate 19 (1/19)
    ∧ (∀ s : ℚ, 0 ≤ s →
        ((candSize lw s : ℕ) : ℚ) ≤ (lw : ℚ) * s
          ∧ (lw : ℚ) * s - 1 < ((candSize lw s : ℕ) : ℚ))
    ∧ cands lw lh iw ih tm
        = (scales.filter
            (fun s => decide (candSize lw s ≤ iw ∧ candSize lh s ≤ ih))).map
            (fun s => ⟨(tm (candSize lw s) (candSize lh s)).1, s,
              some ((tm (candSize lw s) (candSize lh s)).2.1,
                    (tm (candSize lw s) (candSize lh s)).2.2,
                    candSize lw s, candSize lh s)⟩) := by
  refine ⟨by with_unfolding_all decide, by with_unfolding_all decide,
    by with_unfolding_all decide, by with_unfolding_all decide,
    fun s hs => candSize_bounds lw s hs, cands_eq_filter lw lh iw ih tm⟩

theorem C2_witness :
    0 ≤ (1/2 : ℚ)
    ∧ ((candSize 10 (1/2) : ℕ) : ℚ) ≤ (10 : ℚ) * (1/2)
    ∧ (10 : ℚ) * (1/2) - 1 < ((candSize 10 (1/2) : ℕ) : ℚ) :=
  ⟨by norm_num,
   ((C2_scale_search 10 10 100 100 tmZero).2.2.2.2.1 (1/2) (by norm_num)).1,
   ((C2_scale_search 10 10 100 100 tmZero).2.2.2.2.1 (1/2) (by norm_num)).2⟩

/-- Claim C3 counterexample: with the allowed threshold 0 and a target too
small for any tried scale, the code reports `detected = true` (0 >= 0) while
`location` is `None` — so location is not always present when detected. -/
theorem C3_cex :
    (detect 10 10 0 (some (1, 1)) tmZero).detected = true
    ∧ (detect 10 10 0 (some (1, 1)) tmZero).location = none
    ∧ (detect 10 10 0 (some (1, 1)) tmZero).scale = some 1 := by
  with_unfolding_all decide

/-- Claim C3 (amended): for every input (bounded correlation scores), the
returned confidence lies in [0,1]; `location` and `scale` are both `none`
whenever `detected` is false; whenever `detected` is true, `scale` is present,
and `location` is also present provided the threshold is positive (at
threshold 0 a detection can be reported with `location = none`). -/
theorem C3_result_invariants (lw lh : Nat) (threshold : ℚ)
    (img : Option (Nat × Nat)) (tm : TmOracle)
    (hb : ∀ w h : Nat, -1 ≤ (tm w h).1 ∧ (tm w h).1 ≤ 1) :
    (0 ≤ (detect lw lh threshold img tm).confidence
      ∧ (detect lw lh threshold img tm).confidence ≤ 1)
    ∧ ((detect lw lh threshold img tm).detected = false →
        (detect lw lh threshold img tm).location = none
        ∧ (detect lw lh threshold img tm).scale = none)
    ∧ ((detect lw lh threshold img tm).detected = true →
        ((detect lw lh threshold img tm).scale).isSome = true)
    ∧ ((detect lw lh threshold img tm).detected = true → 0 < threshold →
        ((detect lw lh threshold img tm).location).isSome = true) := by
  match img with
  | none =>
      refine ⟨⟨le_rfl, (by norm_num : (0 : ℚ) ≤ 1)⟩, fun _ => ⟨rfl, rfl⟩, ?_, ?_⟩
      · intro h; exact absurd h (by simp [detect])
      · intro h; exact absurd h (by simp [detect])
  | some (iw, ih) =>
      have h0 : 0 ≤ (detectLoop lw lh iw ih tm).best_confidence := by
        rw [detectLoop_eq_runBest]
        exact le_runBest _ _
      have h1 : (detectLoop lw lh iw ih tm).best_confidence ≤ 1 := by
        rw [detectLoop_eq_runBest]
        refine runBest_le_bound _ _ 1 (by norm_num) (fun c hc => ?_)
        rcases mem_cands lw lh iw ih tm c hc with ⟨s, _, _, rfl⟩
        exact (hb _ _).2
      have hdet : (detect lw lh threshold (some (iw, ih)) tm).detected
          = decide (threshold ≤ (detectLoop lw lh iw ih tm).best_confidence) := rfl
      refine ⟨⟨h0, h1⟩, ?_, ?_, ?_⟩
      · intro h
        rw [hdet] at h
        constructor
        · show (if decide (threshold ≤ (detectLoop lw lh iw ih tm).best_confidence)
              then (detectLoop lw lh iw ih tm).best_location else none) = none
          rw [h]
          rfl
        · show (if decide (threshold ≤ (detectLoop lw lh iw ih tm).best_confidence)
              then some (detectLoop lw lh iw ih tm).best_scale else none) = none
          rw [h]
          rfl
      · intro h
        rw [hdet] at h
        show (Option.isSome
          (if decide (threshold ≤ (detectLoop lw lh iw ih tm).best_confidence)
            then some (detectLoop lw lh iw ih tm).best_scale else none)) = true
        rw [h]
        rfl
      · intro h hth
        rw [hdet] at h
        have hle : threshold ≤ (detectLoop lw lh iw ih tm).best_confidence :=
          of_decide_eq_true h
        have hpos : 0 < (detectLoop lw lh iw ih tm).best_confidence :=
          lt_of_lt_of_le hth hle
        have hloc : ((detectLoop lw lh iw ih tm).best_location).isSome = true := by
          rw [detectLoop_eq_runBest] at hpos ⊢
          rcases runBest_self_or_mem (cands lw lh iw ih tm) ⟨0, 1, none⟩ with he | hm
          · rw [he] at hpos
            exact absurd hpos (lt_irrefl _)
          · rcases mem_cands lw lh iw ih tm _ hm with ⟨s, _, _, heq⟩
            rw [heq]
            rfl
        show (Option.isSome
          (if decide (threshold ≤ (detectLoop lw lh iw ih tm).best_confidence)
            then (detectLoop lw lh iw ih tm).best_location else none)) = true
        rw [h]
        exact hloc

theorem C3_witness :
    (0 ≤ (detect 10 10 (3/5) (some (100, 100)) tmZero).confidence
      ∧ (detect 10 10 (3/5) (some (100, 100)) tmZero).confidence ≤ 1) :=
  (C3_result_invariants 10 10 (3/5) (some (100, 100)) tmZero
    (fun w h => ⟨by norm_num [tmZero], by norm_num [tmZero]⟩)).1

/-- A constant negative correlation oracle, used for concrete instances. -/
def tmNeg : TmOracle := fun _ _ => (-1/2, 0, 0)

/-- Claim C10: the returned confidence is never negative; in particular, when
every correlation score over every tried scale is negative, the running best
stays at its initial value 0 (only strictly greater scores replace it), so the
returned confidence is exactly 0. -/
theorem C10_confidence_nonneg (lw lh : Nat) (threshold : ℚ)
    (img : Option (Nat × Nat)) (tm : TmOracle) :
    0 ≤ (detect lw lh threshold img tm).confidence
    ∧ ((∀ w h : Nat, (tm w h).1 < 0) → ∀ iw ih : Nat,
        (detect lw lh threshold (some (iw, ih)) tm).confidence = 0) := by
  constructor
  · match img with
    | none => exact le_rfl
    | some (iw, ih) =>
        show 0 ≤ (detectLoop lw lh iw ih tm).best_confidence
        rw [detectLoop_eq_runBest]
        exact le_runBest _ _
  · intro hneg iw ih
    show (detectLoop lw lh iw ih tm).best_confidence = 0
    rw [detectLoop_eq_runBest]
    refine le_antisymm ?_ (le_runBest _ _)
    refine runBest_le_bound _ _ 0 le_rfl (fun c hc => ?_)
    rcases mem_cands lw lh iw ih tm c hc with ⟨s, _, _, rfl⟩
    exact le_of_lt (hneg _ _)

theorem C10_witness :
    (detect 10 10 (3/5) (some (100, 100)) tmNeg).confidence = 0
    ∧ 0 ≤ (detect 10 10 (3/5) none tmNeg).confidence :=
  ⟨(C10_confidence_nonneg 10 10 (3/5) (some (100, 100)) tmNeg).2
      (fun w h => by norm_num [tmNeg]) 100 100,
   (C10_confidence_nonneg 10 10 (3/5) none tmNeg).1⟩

/- ## Detection record store (src/stream_monitor.py, main.py)

The persisted file is modelled at two levels.  For `load`/round-trip claims a
file read yields either `missing` (the file does not exist), `unparseable`
(`json.load` raises `JSONDecodeError`) or the parsed JSON value.  For the
atomicity claim about `save` the write path is modelled at byte level. -/

/-- One entry of `data/detections.json`, with the exact keys written by
`StreamMonitor.check_streams` (stream_monitor.py lines 150-162). -/
structure DetectionRecord where
  timestamp : String
  streamer : String
  streamer_login : String
  title : String
  game : String
  viewers : Nat
  logo_detected : Bool
  confidence : ℚ
  thumbnail : String
  annotated : String
  started_at : String
deriving DecidableEq, Repr

/-- JSON values, as produced by Python's `json` module. -/
inductive JsonVal where
  | null
  | bool (b : Bool)
  | num (q : ℚ)
  | str (s : String)
  | arr (l : List JsonVal)
  | obj (l : List (String × JsonVal))

/-- Whether a JSON value is an array (a "sequence" in the spec's words). -/
def JsonVal.isArr : JsonVal → Bool
  | .arr _ => true
  | _ => false

/-- Outcome of opening and JSON-parsing the persisted store file. -/
inductive FileRead where
  | missing
  | unparseable
  | parsed (v : JsonVal)

/-- Model of `StreamMonitor._load_detections` (stream_monitor.py lines 44-52): an
absent file yields `[]`, a `json.JSONDecodeError` yields `[]`, and otherwise
whatever value `json.load` produced is returned unvalidated. -/
def load_detections : FileRead → JsonVal
  | .missing => .arr []
  | .unparseable => .arr []
  | .parsed v => v

/-- The JSON object `json.dump` writes for one record (exact keys and order
of stream_monitor.py lines 150-162). -/
def serializeRecord (r : DetectionRecord) : JsonVal :=
  .obj [("timestamp", .str r.timestamp), ("streamer", .str r.streamer),
        ("streamer_login", .str r.streamer_login), ("title", .str r.title),
        ("game", .str r.game), ("viewers", .num (r.viewers : ℚ)),
        ("logo_detected", .bool r.logo_detected),
        ("confidence", .num r.confidence),
        ("thumbnail", .str r.thumbnail), ("annotated", .str r.annotated),
        ("started_at", .str r.started_at)]

/-- The JSON array `json.dump` writes for the whole store: the records in
insertion order, no sort applied. -/
def serializeStore (l : List DetectionRecord) : JsonVal :=
  .arr (l.map serializeRecord)

/-- Model of `StreamMonitor._save_detections` (stream_monitor.py lines 54-57) at the
JSON-value level: the file afterwards parses back to exactly the serialized
in-memory sequence. -/
def save_detections (l : List DetectionRecord) : FileRead :=
  .parsed (serializeStore l)

/-- Spec-side decoder for a natural-number JSON field, used to state the
field-for-field round-trip. -/
def decodeNat (v : JsonVal) : Option Nat :=
  match v with
  | .num q => if 0 ≤ q.num ∧ q.den = 1 then some q.num.toNat else none
  | _ => none

/-- Spec-side decoder recovering a typed record from its JSON object, used to
state the field-for-field round-trip. -/
def decodeRecord (v : JsonVal) : Option DetectionRecord :=
  match v with
  | .obj [("timestamp", .str ts), ("streamer", .str sr),
          ("streamer_login", .str sl), ("title", .str ti),
          ("game", .str ga), ("viewers", vi),
          ("logo_detected", .bool ld), ("confidence", .num cf),
          ("thumbnail", .str th), ("annotated", .str an),
          ("started_at", .str sa)] =>
      (decodeNat vi).map (fun n => ⟨ts, sr, sl, ti, ga, n, ld, cf, th, an, sa⟩)
  | _ => none

/-- Spec-side decoder for the whole store. -/
def decodeStore (v : JsonVal) : Option (List DetectionRecord) :=
  match v with
  | .arr l => l.mapM decodeRecord
  | _ => none

lemma decodeNat_natCast (n : Nat) : decodeNat (.num (n : ℚ)) = some n := by
  simp [decodeNat]

lemma decodeRecord_serializeRecord (r : DetectionRecord) :
    decodeRecord (serializeRecord r) = some r := by
  cases r with
  | mk ts sr sl ti ga vi ld cf th an sa =>
      show (decodeNat (.num (vi : ℚ))).map
          (fun n => (⟨ts, sr, sl, ti, ga, n, ld, cf, th, an, sa⟩ :
            DetectionRecord))
        = some ⟨ts, sr, sl, ti, ga, vi, ld, cf, th, an, sa⟩
      rw [decodeNat_natCast]
      rfl

lemma decodeStore_serializeStore (l : List DetectionRecord) :
    decodeStore (serializeStore l) = some l := by
  induction l with
  | nil => rfl
  | cons r l IH =>
      simp only [serializeStore, decodeStore, List.map_cons, List.mapM_cons,
        decodeRecord_serializeRecord] at *
      rw [IH]
      rfl

/-- Claim C7 counterexample: file content that parses as JSON but is not a
sequence of records — here the JSON number 42 — is returned as-is by
`load_detections` rather than being replaced by the empty sequence. -/
theorem C7_cex :
    load_detections (FileRead.parsed (JsonVal.num 42)) = JsonVal.num 42
    ∧ (JsonVal.num 42).isArr = false
    ∧ (JsonVal.arr []).isArr = true
    ∧ decodeStore (JsonVal.num 42) = none :=
  ⟨rfl, rfl, rfl, rfl⟩

/-- Claim C7 (amended): `load_detections` returns the empty sequence when the
file is missing and when the content fails JSON parsing (never raising in
either case); a successfully parsed JSON value, however, is returned
unvalidated — in particular any well-formed serialized store is returned as
exactly that sequence of records, but a parsed non-sequence is passed through
unchanged. -/
theorem C7_load_handling (v : JsonVal) :
    load_detections FileRead.missing = JsonVal.arr []
    ∧ load_detections FileRead.unparseable = JsonVal.arr []
    ∧ load_detections (FileRead.parsed v) = v
    ∧ (∀ l : List DetectionRecord,
        decodeStore (load_detections (FileRead.parsed (serializeStore l)))
          = some l) :=
  ⟨rfl, rfl, rfl, fun l => decodeStore_serializeStore l⟩

/-- Claim C9: `save_detections` followed by `load_detections` yields a
sequence equal field-for-field and in the same order to the in-memory
sequence that was saved; the write applies no sort (the serialized array maps
the records in insertion order). -/
theorem C9_save_load_roundtrip (l : List DetectionRecord) :
    decodeStore (load_detections (save_detections l)) = some l
    ∧ load_detections (save_detections l)
        = JsonVal.arr (l.map serializeRecord) :=
  ⟨decodeStore_serializeStore l, rfl⟩

/- ## Annotator (`LogoDetector.draw_detection`, logo_detector.py lines 102-136) -/

/-- What is drawn on the annotated copy: either the green rectangle with the
confidence text, or the fixed "Logo NO detectado" marker. -/
inductive Overlay where
  | box (x y w h : Nat)
  | noLogo
deriving DecidableEq, Repr

/-- Model of `LogoDetector.draw_detection`.  `image` is `none` when `cv2.imread`
cannot re-decode the target (line 115).  `writeOk` models the Bool that
`cv2.imwrite` returns on line 135 — the source discards it and returns `True`
unconditionally (line 136).  The result pairs the drawn overlay (if any
image was decoded) with the returned Bool. -/
def draw_detection (image : Option (Nat × Nat)) (res : DetectionResult)
    (writeOk : Bool) : Option Overlay × Bool :=
  match image with
  | none => (none, false)
  | some _ =>
      match res.detected, res.location with
      | true, some (x, y, w, h) => (some (Overlay.box x y w h), true)
      | _, _ => (some Overlay.noLogo, true)

/-- Claim C6 counterexample: when the image decodes but the write fails
(`cv2.imwrite` returns false), `draw_detection` still returns `True` — the
returned boolean does not report whether the write succeeded. -/
theorem C6_cex :
    (draw_detection (some (100, 100))
        ⟨true, 9/10, some (1, 2, 3, 4), some 1⟩ false).2 = true
    ∧ (draw_detection (some (100, 100))
        ⟨false, 0, none, none⟩ false).2 = true :=
  ⟨rfl, rfl⟩

/-- Claim C6 (amended): `draw_detection` returns false exactly when the
target image fails to decode (reported as a boolean, not an exception), and
returns true whenever the target decodes, regardless of whether the image
write succeeded. -/
theorem C6_draw_returns (image : Option (Nat × Nat)) (res : DetectionResult)
    (writeOk : Bool) :
    (draw_detection image res writeOk).2 = image.isSome
    ∧ draw_detection none res writeOk = (none, false) := by
  constructor
  · match image with
    | none => rfl
    | some p =>
        show (draw_detection (some p) res writeOk).2 = true
        match hd : res.detected, hl : res.location with
        | true, some (x, y, w, h) =>
            simp [draw_detection, hd, hl]
        | true, none => simp [draw_detection, hd, hl]
        | false, some (x, y, w, h) => simp [draw_detection, hd, hl]
        | false, none => simp [draw_detection, hd, hl]
  · rfl

/- ## Check cycle (`StreamMonitor.check_streams`, stream_monitor.py lines 83-181) -/

/-- A live-channel descriptor as delivered by the Twitch API client. -/
structure LiveStream where
  user_name : String
  user_login : String
  title : String
  game_name : String
  viewer_count : Nat
  started_at : String
deriving DecidableEq, Repr

/-- The thumbnail filename `f"{username}_{timestamp_str}_thumb.jpg"`
(stream_monitor.py line 126). -/
def thumbName (s : LiveStream) (tsStr : String) : String :=
  s.user_login ++ "_" ++ tsStr ++ "_thumb.jpg"

/-- The annotated filename `f"{username}_{timestamp_str}_detected.jpg"`
(stream_monitor.py line 127). -/
def annName (s : LiveStream) (tsStr : String) : String :=
  s.user_login ++ "_" ++ tsStr ++ "_detected.jpg"

/-- The record appended for one processed stream (stream_monitor.py lines
150-162). -/
def mkRecord (now : String) (s : LiveStream) (d : DetectionResult)
    (thumb ann : String) : DetectionRecord :=
  ⟨now, s.user_name, s.user_login, s.title, s.game_name, s.viewer_count,
    d.detected, d.confidence, thumb, ann, s.started_at⟩

/-- The records appended by the per-stream loop of `check_streams`
(stream_monitor.py lines 117-165).  `downloadOk` models whether
`_download_thumbnail` succeeds (a failure runs `continue`, line 141);
`thumbDims` models whether `cv2.imread` can decode the downloaded thumbnail
and with which dimensions; `tmOf` is each stream's correlation oracle.
`lw`, `lh`, `threshold` belong to the detector; `now` and `tsStr` stand for
the wall-clock strings. -/
def check_streams (lw lh : Nat) (threshold : ℚ) (now tsStr : String)
    (downloadOk : LiveStream → Bool)
    (thumbDims : LiveStream → Option (Nat × Nat))
    (tmOf : LiveStream → TmOracle) (live : List LiveStream) :
    List DetectionRecord :=
  live.foldl
    (fun acc s =>
      if downloadOk s = false then acc
      else acc ++ [mkRecord now s
        (detect lw lh threshold (thumbDims s) (tmOf s))
        (thumbName s tsStr) (annName s tsStr)])
    []

/-- A concrete live stream for counterexamples. -/
def streamA : LiveStream :=
  ⟨"StreamerA", "streamera", "Gran Premio", "Racing", 120,
    "2026-01-01T00:00:00"⟩

lemma foldl_check_streams (lw lh : Nat) (threshold : ℚ) (now tsStr : String)
    (downloadOk : LiveStream → Bool)
    (thumbDims : LiveStream → Option (Nat × Nat))
    (tmOf : LiveStream → TmOracle) :
    ∀ (live : List LiveStream) (acc : List DetectionRecord),
      live.foldl
        (fun acc s =>
          if downloadOk s = false then acc
          else acc ++ [mkRecord now s
            (detect lw lh threshold (thumbDims s) (tmOf s))
            (thumbName s tsStr) (annName s tsStr)])
        acc
      = acc ++ (live.filter downloadOk).map
          (fun s => mkRecord now s
            (detect lw lh threshold (thumbDims s) (tmOf s))
            (thumbName s tsStr) (annName s tsStr)) := by
  intro live
  induction live with
  | nil => intro acc; simp
  | cons s live IH =>
      intro acc
      cases hs : downloadOk s
      · simp [List.foldl_cons, List.filter_cons, hs, IH]
      · simp [List.foldl_cons, List.filter_cons, hs, IH]

/-- Claim C4 counterexample: a channel whose thumbnail downloads but cannot
be decoded is NOT skipped — `detect` silently returns a no-detection result
and a record is still appended for the channel (with `logo_detected = false`
and confidence 0). -/
theorem C4_cex :
    (check_streams 10 10 (3/5) "2026-01-01T01:00:00" "20260101_010000"
        (fun _ => true) (fun _ => none) (fun _ => tmZero) [streamA]).length = 1
    ∧ (check_streams 10 10 (3/5) "2026-01-01T01:00:00" "20260101_010000"
        (fun _ => true) (fun _ => none) (fun _ => tmZero)
        [streamA]).head?.map DetectionRecord.logo_detected = some false := by
  constructor
  · rfl
  · rfl

/-- Claim C4 (amended): during a check cycle exactly the channels whose
thumbnail download succeeds produce a record, in order — a download failure
skips the channel while the remaining channels are still processed; an
undecodable downloaded thumbnail does NOT skip the channel: its record is
still appended, carrying `logo_detected = false` and confidence 0. -/
theorem C4_cycle_records (lw lh : Nat) (threshold : ℚ) (now tsStr : String)
    (downloadOk : LiveStream → Bool)
    (thumbDims : LiveStream → Option (Nat × Nat))
    (tmOf : LiveStream → TmOracle) (live : List LiveStream) :
    check_streams lw lh threshold now tsStr downloadOk thumbDims tmOf live
      = (live.filter downloadOk).map
          (fun s => mkRecord now s
            (detect lw lh threshold (thumbDims s) (tmOf s))
            (thumbName s tsStr) (annName s tsStr))
    ∧ (∀ s : LiveStream, thumbDims s = none →
        (mkRecord now s (detect lw lh threshold (thumbDims s) (tmOf s))
            (thumbName s tsStr) (annName s tsStr)).logo_detected = false
        ∧ (mkRecord now s (detect lw lh threshold (thumbDims s) (tmOf s))
            (thumbName s tsStr) (annName s tsStr)).confidence = 0) := by
  constructor
  · exact foldl_check_streams lw lh threshold now tsStr downloadOk thumbDims
      tmOf live []
  · intro s hs
    rw [hs]
    exact ⟨rfl, rfl⟩

theorem C4_witness :
    (fun _ : LiveStream => (none : Option (Nat × Nat))) streamA = none
    ∧ (mkRecord "t" streamA
        (detect 10 10 (3/5)
          ((fun _ : LiveStream => (none : Option (Nat × Nat))) streamA)
          ((fun _ => tmZero) streamA))
        (thumbName streamA "ts") (annName streamA "ts")).logo_detected = false :=
  ⟨rfl,
   ((C4_cycle_records 10 10 (3/5) "t" "ts" (fun _ => true)
      (fun _ => none) (fun _ => tmZero) [streamA]).2 streamA rfl).1⟩

/- ## Byte-level model of `_save_detections` (stream_monitor.py lines 54-57)

`open(self.detections_file, 'w')` truncates the target file in place and
`json.dump` then streams the serialized text into it.  The write path is a
list of filesystem steps; a crash after any prefix of the steps leaves the
file in the corresponding intermediate state. -/

/-- Path of the persisted store (stream_monitor.py line 41). -/
def detectionsPath : String := "data/detections.json"

/-- Elementary filesystem steps.  `renameFile` is included so that the
claimed write-temp-then-rename pattern is expressible; the source never
performs it. -/
inductive FsStep where
  | openTrunc (path : String)
  | writeByte (path : String) (c : Char)
  | renameFile (src dst : String)
deriving DecidableEq, Repr

/-- Filesystem state: each path maps to its content (as characters), or to
`none` when absent. -/
def applyStep (fs : String → Option (List Char)) (step : FsStep) :
    String → Option (List Char) :=
  match step with
  | .openTrunc p => fun q => if q = p then some [] else fs q
  | .writeByte p c => fun q => if q = p then some ((fs p).getD [] ++ [c]) else fs q
  | .renameFile src dst =>
      fun q => if q = dst then fs src else if q = src then none else fs q

def runSteps (fs : String → Option (List Char)) (l : List FsStep) :
    String → Option (List Char) :=
  l.foldl applyStep fs

/-- A plausible rendering of the text `json.dump` emits for one record
(exact keys in source order; the precise float/whitespace formatting is
irrelevant to the write-path claims). -/
def encodeRecord (r : DetectionRecord) : String :=
  "\x7b\"timestamp\": \"" ++ r.timestamp
    ++ "\", \"streamer\": \"" ++ r.streamer
    ++ "\", \"streamer_login\": \"" ++ r.streamer_login
    ++ "\", \"title\": \"" ++ r.title
    ++ "\", \"game\": \"" ++ r.game
    ++ "\", \"viewers\": " ++ toString r.viewers
    ++ ", \"logo_detected\": " ++ (if r.logo_detected then "true" else "false")
    ++ ", \"confidence\": " ++ toString r.confidence.num ++ "/"
    ++ toString r.confidence.den
    ++ ", \"thumbnail\": \"" ++ r.thumbnail
    ++ "\", \"annotated\": \"" ++ r.annotated
    ++ "\", \"started_at\": \"" ++ r.started_at ++ "\"\x7d"

/-- The serialized text of the whole store. -/
def encodeStore (l : List DetectionRecord) : String :=
  "[" ++ String.intercalate ", " (l.map encodeRecord) ++ "]"

/-- The filesystem steps `_save_detections` performs: truncate the target in
place, then write the serialization byte by byte.  No temporary path, no
rename. -/
def save_detections_steps (l : List DetectionRecord) : List FsStep :=
  FsStep.openTrunc detectionsPath
    :: (encodeStore l).data.map (FsStep.writeByte detectionsPath)

/-- The empty filesystem. -/
def fsEmpty : String → Option (List Char) := fun _ => none

/-- A concrete record for counterexamples. -/
def rec0 : DetectionRecord :=
  ⟨"2026-01-01T00:00:00", "StreamerA", "streamera", "Gran Premio", "Racing",
    120, true, 9/10, "a_thumb.jpg", "a_detected.jpg", "2026-01-01T00:00:00"⟩

lemma runSteps_writeBytes (p : String) :
    ∀ (cs : List Char) (fs : String → Option (List Char)) (t : List Char),
      fs p = some t →
      runSteps fs (cs.map (FsStep.writeByte p)) p = some (t ++ cs) := by
  intro cs
  induction cs with
  | nil => intro fs t h; simpa [runSteps] using h
  | cons c cs IH =>
      intro fs t h
      show runSteps (applyStep fs (.writeByte p c)) (cs.map (FsStep.writeByte p)) p
        = some (t ++ c :: cs)
      have h2 : applyStep fs (.writeByte p c) p = some (t ++ [c]) := by
        simp [applyStep, h]
      rw [IH _ _ h2, List.append_assoc]
      rfl

/-- Claim C5 counterexample: `_save_detections` performs no rename step at
all, and crashing after the truncating open plus one byte leaves the file
holding just "[" — a state that is neither the old content (absent) nor the
full new serialization: a half-written file is observable. -/
theorem C5_cex :
    (save_detections_steps [rec0]).filter
        (fun s => match s with | FsStep.renameFile _ _ => true | _ => false)
      = []
    ∧ runSteps fsEmpty ((save_detections_steps [rec0]).take 2) detectionsPath
        = some ['[']
    ∧ some ['['] ≠ some (encodeStore [rec0]).data
    ∧ some ['['] ≠ fsEmpty detectionsPath := by
  refine ⟨by with_unfolding_all decide, by with_unfolding_all decide,
    ?_, by with_unfolding_all decide⟩
  intro h
  have : (['['] : List Char).length = (encodeStore [rec0]).data.length :=
    congrArg (fun o => (Option.getD o []).length) h
  rw [show (encodeStore [rec0]).data.length = 291 from by
    with_unfolding_all decide] at this
  exact absurd this (by decide)

/-- Claim C5 (amended): `_save_detections` persists the full in-memory
sequence, but by truncating the target file in place and writing the
serialization directly into it — there is no temporary path and no rename,
so the write is not atomic and a crash mid-write can leave a half-written
store file observable (witness `C5_cex`). -/
theorem C5_save_in_place (l : List DetectionRecord)
    (fs : String → Option (List Char)) :
    runSteps fs (save_detections_steps l) detectionsPath
        = some (encodeStore l).data
    ∧ (save_detections_steps l).all
        (fun s => match s with | FsStep.renameFile _ _ => false | _ => true)
        = true := by
  constructor
  · show runSteps (applyStep fs (.openTrunc detectionsPath))
        ((encodeStore l).data.map (FsStep.writeByte detectionsPath))
        detectionsPath
      = some (encodeStore l).data
    have h0 : applyStep fs (.openTrunc detectionsPath) detectionsPath
        = some [] := by simp [applyStep]
    rw [runSteps_writeBytes _ _ _ _ h0]
    rfl
  · show (FsStep.openTrunc detectionsPath
        :: (encodeStore l).data.map (FsStep.writeByte detectionsPath)).all _
      = true
    rw [List.all_cons]
    refine (Bool.and_eq_true _ _).mpr ⟨rfl, ?_⟩
    rw [List.all_eq_true]
    intro s hs
    rcases List.mem_map.mp hs with ⟨c, _, rfl⟩
    rfl

/- ## Retention pruning (`cleanup_old_data`, main.py lines 20-79)

Timestamps are compared after `datetime.fromisoformat`; `parseTime` models
that parse, mapping the ISO string to an instant, and `now` is the instant at
which the cleanup runs, both measured in days so that the cutoff of
`timedelta(days=days)` is `now - days`. -/

/-- The partition loop of `cleanup_old_data` (main.py lines 45-59): records
strictly newer than the cutoff are kept in order; for every other record the
thumbnail and annotated capture filenames are collected for deletion.  The
kept list is then written back (lines 62-63), so the first component is the
store content after the run. -/
def cleanup_old_data (parseTime : String → Int) (now days : Int)
    (detections : List DetectionRecord) :
    List DetectionRecord × List String :=
  detections.foldl
    (fun acc d =>
      if now - days < parseTime d.timestamp then (acc.1 ++ [d], acc.2)
      else (acc.1, acc.2 ++ [d.thumbnail, d.annotated]))
    ([], [])

lemma cleanup_foldl (parseTime : String → Int) (now days : Int) :
    ∀ (l : List DetectionRecord) (a : List DetectionRecord) (b : List String),
      l.foldl
        (fun acc d =>
          if now - days < parseTime d.timestamp then (acc.1 ++ [d], acc.2)
          else (acc.1, acc.2 ++ [d.thumbnail, d.annotated]))
        (a, b)
      = (a ++ l.filter (fun d => decide (now - days < parseTime d.timestamp)),
         b ++ (l.filter (fun d => decide (parseTime d.timestamp ≤ now - days))).foldr
            (fun d acc => d.thumbnail :: d.annotated :: acc) []) := by
  intro l
  induction l with
  | nil => intro a b; simp
  | cons d l IH =>
      intro a b
      rw [List.foldl_cons]
      by_cases hd : now - days < parseTime d.timestamp
      · rw [if_pos hd, IH]
        rw [List.filter_cons_of_pos (by simpa using hd),
            List.filter_cons_of_neg (by simp; exact hd)]
        simp
      · rw [if_neg hd, IH]
        rw [List.filter_cons_of_neg (by simpa using hd),
            List.filter_cons_of_pos (by simp; exact le_of_not_lt hd)]
        simp

/-- Claim C8: `cleanup_old_data` partitions the stored records against the
cutoff `now - days` into kept (timestamp strictly newer than the cutoff, in
order) and removed (timestamp at or before the cutoff); it collects exactly
the removed records' raw and annotated capture filenames for deletion; and
it is idempotent on the store content: pruning the kept records again (same
cutoff, no intervening append) changes nothing. -/
theorem C8_prune (parseTime : String → Int) (now days : Int)
    (l : List DetectionRecord) :
    (cleanup_old_data parseTime now days l).1
        = l.filter (fun d => decide (now - days < parseTime d.timestamp))
    ∧ (cleanup_old_data parseTime now days l).2
        = (l.filter (fun d => decide (parseTime d.timestamp ≤ now - days))).foldr
            (fun d acc => d.thumbnail :: d.annotated :: acc) []
    ∧ (cleanup_old_data parseTime now days
          ((cleanup_old_data parseTime now days l).1)).1
        = (cleanup_old_data parseTime now days l).1 := by
  have h := cleanup_foldl parseTime now days l [] []
  refine ⟨?_, ?_, ?_⟩
  · show (l.foldl _ ([], [])).1 = _
    rw [h]
    rfl
  · show (l.foldl _ ([], [])).2 = _
    rw [h]
    rfl
  · show (((cleanup_old_data parseTime now days l).1).foldl _ ([], [])).1 = _
    rw [cleanup_foldl parseTime now days _ [] []]
    show [] ++ _ = _
    rw [List.nil_append]
    show ((cleanup_old_data parseTime now days l).1).filter _ = _
    have h1 : (cleanup_old_data parseTime now days l).1
        = l.filter (fun d => decide (now - days < parseTime d.timestamp)) := by
      show (l.foldl _ ([], [])).1 = _
      rw [h]
      rfl
    rw [h1, List.filter_filter]
    simp

end BotMonitor
